import Mathlib

/-!
# Verification of the slab-optimizer packing core (`src/app.py`)

Shallow embedding of the guillotine packing core of `app.py`:
`can_fit_any_rotation`, `guillotine_split`, the piece loop and slab loop of
`try_combo`, `try_combo_wrapped`, the candidate-combination enumeration and
the best-result selection loop of `nest_pieces_guillotine`.

Python floats are modelled as rationals (`ℚ`); the arithmetic performed by the
core is addition, subtraction, multiplication and comparison, which agree with
exact rational arithmetic on the inputs considered here.  Mutable lists become
explicit list values; the `ThreadPoolExecutor`/`as_completed` consumption order
of worker results becomes an explicit `order` parameter (a permutation of the
enumerated candidate combinations).
-/

set_option synthInstance.maxSize 4096
set_option maxRecDepth 2048

namespace SlabOpt

/-- A required piece: `(name, w, h)` tuple of `app.py` (`required_pieces`). -/
structure Piece where
  name : String
  w : ℚ
  h : ℚ
deriving DecidableEq

/-- A free space `(x, y, w, h)` tuple of `app.py` (`free_spaces` entries). -/
structure Rect where
  x : ℚ
  y : ℚ
  w : ℚ
  h : ℚ
deriving DecidableEq

/-- A layout entry `(name, pos, dim)` appended by the piece loop of `try_combo`. -/
structure Placement where
  name : String
  pos : ℚ × ℚ
  dim : ℚ × ℚ
deriving DecidableEq

/-- The `(results, pieces, used_slabs)` triple returned by `try_combo` /
`nest_pieces_guillotine`. -/
abbrev NestResult :=
  List ((ℚ × ℚ) × List Placement) × List Piece × List (ℚ × ℚ)

/-- `can_fit_any_rotation` (app.py lines 48-54): try the orientations
`(pw, ph)` then `(ph, pw)` against the space `(sw, sh)`; return the first that
fits, else `(false, (0, 0))`. -/
def can_fit_any_rotation (piece space : ℚ × ℚ) : Bool × (ℚ × ℚ) :=
  let pw := piece.1
  let ph := piece.2
  let sw := space.1
  let sh := space.2
  if pw ≤ sw ∧ ph ≤ sh then (true, (pw, ph))
  else if ph ≤ sw ∧ pw ≤ sh then (true, (ph, pw))
  else (false, (0, 0))

/-- `guillotine_split` (app.py lines 56-71): scan `free_spaces` in order; at
the first rectangle some orientation of the piece fits in, place the piece at
the rectangle's origin, drop the consumed rectangle, and append (at the end of
the list) the right strip `(fx+ow, fy, fw-ow, oh)` and the top strip
`(fx, fy+oh, fw, fh-oh)` when they have positive width and height.  Returns
`none` where the Python returns `(None, None)`; on success also returns the
updated free-space list (the Python mutates it in place). -/
def guillotine_split : List Rect → ℚ → ℚ → Option ((ℚ × ℚ) × (ℚ × ℚ) × List Rect)
  | [], _, _ => none
  | f :: free, pw, ph =>
    let fit := can_fit_any_rotation (pw, ph) (f.w, f.h)
    if fit.1 then
      let ow := fit.2.1
      let oh := fit.2.2
      let new_spaces := [Rect.mk (f.x + ow) f.y (f.w - ow) oh,
                         Rect.mk f.x (f.y + oh) f.w (f.h - oh)]
      some ((f.x, f.y), (ow, oh),
        free ++ new_spaces.filter (fun s => decide (0 < s.w) && decide (0 < s.h)))
    else
      match guillotine_split free pw ph with
      | some (pos, dim, rest) => some (pos, dim, f :: rest)
      | none => none

/-- Area `w * h` of a piece, as computed by the sort keys of `app.py`. -/
def piece_area (p : Piece) : ℚ := p.w * p.h

/-- Stable descending insertion used to model Python's stable
`sorted(required_pieces, key=lambda x: x[1]*x[2], reverse=True)`. -/
def insert_piece_desc (p : Piece) : List Piece → List Piece
  | [] => [p]
  | q :: qs =>
    if piece_area q ≤ piece_area p then p :: q :: qs
    else q :: insert_piece_desc p qs

/-- `sorted(required_pieces, key=lambda x: x[1] * x[2], reverse=True)`
(app.py line 79 / 151): stable sort, descending by area. -/
def sort_pieces_desc (ps : List Piece) : List Piece :=
  ps.foldr insert_piece_desc []

/-- Stable ascending insertion used to model Python's stable
`sorted(slabs, key=lambda x: x[0]*x[1])`. -/
def insert_slab_asc (s : ℚ × ℚ) : List (ℚ × ℚ) → List (ℚ × ℚ)
  | [] => [s]
  | q :: qs =>
    if s.1 * s.2 ≤ q.1 * q.2 then s :: q :: qs
    else q :: insert_slab_asc s qs

/-- `sort_slabs` (app.py lines 108-109): stable sort ascending by area. -/
def sort_slabs (slabs : List (ℚ × ℚ)) : List (ℚ × ℚ) :=
  slabs.foldr insert_slab_asc []

/-- The `for name, pw, ph in pieces:` loop of `try_combo` (app.py lines
90-95 / 162-167): thread the free-space list through `guillotine_split`,
collecting the layout and the `still_needed` pieces in iteration order. -/
def place_all (free : List Rect) : List Piece → List Placement × List Piece × List Rect
  | [] => ([], [], free)
  | p :: ps =>
    match guillotine_split free p.w p.h with
    | some (pos, dim, free') =>
      let r := place_all free' ps
      (⟨p.name, pos, dim⟩ :: r.1, r.2.1, r.2.2)
    | none =>
      let r := place_all free ps
      (r.1, p :: r.2.1, r.2.2)

/-- The slab width after the `if sh > sw: sw, sh = sh, sw` swap of `app.py`
lines 82-84. -/
def norm_w (slab : ℚ × ℚ) : ℚ := if slab.2 > slab.1 then slab.2 else slab.1

/-- The slab height after the `if sh > sw: sw, sh = sh, sw` swap of `app.py`
lines 82-84. -/
def norm_h (slab : ℚ × ℚ) : ℚ := if slab.2 > slab.1 then slab.1 else slab.2

/-- The `for slab in combo:` loop of `try_combo` (app.py lines 81-103):
normalize the slab so that width ≥ height, fill it from a single full-slab
free space, record it in `results`/`used_slabs` only when at least one piece
was placed, and break as soon as no piece is still needed. -/
def try_combo_loop : List Piece → List (ℚ × ℚ) → NestResult
  | pieces, [] => ([], pieces, [])
  | pieces, slab :: combo =>
    let sw := norm_w slab
    let sh := norm_h slab
    let r := place_all [Rect.mk 0 0 sw sh] pieces
    let layout := r.1
    let still_needed := r.2.1
    let recorded : List ((ℚ × ℚ) × List Placement) × List (ℚ × ℚ) :=
      if layout = [] then ([], []) else ([((sw, sh), layout)], [(sw, sh)])
    if still_needed = [] then (recorded.1, [], recorded.2)
    else
      let rest := try_combo_loop still_needed combo
      (recorded.1 ++ rest.1, rest.2.1, recorded.2 ++ rest.2.2)

/-- `try_combo` (app.py lines 76-105, duplicated verbatim at lines 148-177):
sort the pieces by descending area, then run the slab loop. -/
def try_combo (required_pieces : List Piece) (combo : List (ℚ × ℚ)) : NestResult :=
  try_combo_loop (sort_pieces_desc required_pieces) combo

/-- `required_area` (app.py line 111): `sum(w * h for _, w, h in required_pieces)`. -/
def required_area (required_pieces : List Piece) : ℚ :=
  (required_pieces.map (fun p => p.w * p.h)).sum

/-- `try_combo_wrapped` (app.py lines 179-186): evaluate `try_combo` on
`list(combo) * 5`; if nothing is left over return the wastage
`used_area - required_area` with the result, else report infeasibility
(the Python returns `(float('inf'), None)`, modelled as `none`). -/
def try_combo_wrapped (required_pieces : List Piece) (combo : List (ℚ × ℚ)) :
    Option (ℚ × NestResult) :=
  let combo_list := combo ++ combo ++ combo ++ combo ++ combo
  let r := try_combo required_pieces combo_list
  if r.2.1 = [] then
    let used_area := (r.2.2.map (fun s => s.1 * s.2)).sum
    some (used_area - required_area required_pieces, r)
  else
    none

/-- `itertools.combinations(l, r)`: the length-`r` sublists of `l`, in the
order itertools produces them (lexicographic by index). -/
def combinations : Nat → List α → List (List α)
  | 0, _ => [[]]
  | _ + 1, [] => []
  | r + 1, x :: xs =>
    (combinations r xs).map (fun c => x :: c) ++ combinations (r + 1) xs

/-- The candidate enumeration of `nest_pieces_guillotine` (app.py lines
196-201): for `r in range(1, min(len(sorted_slabs), 5) + 1)` take
`combinations(sorted_slabs, r)` and keep a combination unless
`slab_area < required_area`. -/
def candidate_combos (required_pieces : List Piece) (available_slabs : List (ℚ × ℚ)) :
    List (List (ℚ × ℚ)) :=
  let sorted_slabs := sort_slabs available_slabs
  ((List.range' 1 (min sorted_slabs.length 5)).flatMap
      (fun r => combinations r sorted_slabs)).filter
    (fun combo =>
      !decide ((combo.map (fun s => s.1 * s.2)).sum < required_area required_pieces))

/-- The `for future in as_completed(futures):` loop of
`nest_pieces_guillotine` (app.py lines 203-207): fold over the worker results
in completion order, keeping the first result of strictly smallest wastage
(`if result and wastage < min_wastage`). -/
def select_best :
    List (Option (ℚ × NestResult)) → Option (ℚ × NestResult) → Option (ℚ × NestResult)
  | [], best => best
  | o :: rest, best =>
    match o, best with
    | none, _ => select_best rest best
    | some (w, r), none => select_best rest (some (w, r))
    | some (w, r), some (bw, br) =>
      if w < bw then select_best rest (some (w, r))
      else select_best rest (some (bw, br))

/-- The smart-combo branch of `nest_pieces_guillotine` (app.py lines
191-209).  `order` is the list of candidate combinations in the order the
`as_completed` loop consumes their futures; a run of the program corresponds
to `order` being some permutation of `candidate_combos required available`. -/
def nest_smart (required_pieces : List Piece) (order : List (List (ℚ × ℚ))) : NestResult :=
  match select_best (order.map (fun c => try_combo_wrapped required_pieces c)) none with
  | some (_, r) => r
  | none => ([], required_pieces, [])

/-- `nest_pieces_guillotine` (app.py lines 107-209).  The granite branch
(lines 114-144) repeats the body of `try_combo` verbatim on `sorted_slabs`;
the non-smart branch (lines 188-189) is `try_combo` on the raw slab list;
the smart branch is `nest_smart` above. -/
def nest_pieces_guillotine (required_pieces : List Piece) (available_slabs : List (ℚ × ℚ))
    (use_smart_combo : Bool) (granite_mode : Bool)
    (order : List (List (ℚ × ℚ))) : NestResult :=
  if granite_mode then try_combo required_pieces (sort_slabs available_slabs)
  else if !use_smart_combo then try_combo required_pieces available_slabs
  else nest_smart required_pieces order

/-! ## Geometric predicates used to state the claims -/

/-- The rectangle occupied by a placement. -/
def placedRect (pl : Placement) : Rect :=
  ⟨pl.pos.1, pl.pos.2, pl.dim.1, pl.dim.2⟩

/-- Two axis-aligned rectangles have disjoint interiors: they are separated
along some axis. -/
def rectSep (a b : Rect) : Prop :=
  a.x + a.w ≤ b.x ∨ b.x + b.w ≤ a.x ∨ a.y + a.h ≤ b.y ∨ b.y + b.h ≤ a.y

/-- `a` is contained in `b`. -/
def rectSub (a b : Rect) : Prop :=
  b.x ≤ a.x ∧ b.y ≤ a.y ∧ a.x + a.w ≤ b.x + b.w ∧ a.y + a.h ≤ b.y + b.h

/-- The rectangle lies inside the panel `[0, sw] × [0, sh]`. -/
def inPanel (r : Rect) (sw sh : ℚ) : Prop :=
  0 ≤ r.x ∧ 0 ≤ r.y ∧ r.x + r.w ≤ sw ∧ r.y + r.h ≤ sh

instance (a b : Rect) : Decidable (rectSep a b) := by
  unfold rectSep; infer_instance

instance (a b : Rect) : Decidable (rectSub a b) := by
  unfold rectSub; infer_instance

instance (r : Rect) (sw sh : ℚ) : Decidable (inPanel r sw sh) := by
  unfold inPanel; infer_instance

/-- The rectangle at position `pos` with dimensions `dim`. -/
def mkRect (pos dim : ℚ × ℚ) : Rect := ⟨pos.1, pos.2, dim.1, dim.2⟩

/-- Boolean test: does either orientation of the `(pw, ph)` piece fit in `r`? -/
def fitsEither (pw ph : ℚ) (r : Rect) : Bool :=
  decide ((pw ≤ r.w ∧ ph ≤ r.h) ∨ (ph ≤ r.w ∧ pw ≤ r.h))

/-! ## Bookkeeping: name/area images of pieces and placements -/

/-- The `(name, area)` image of a piece. -/
def pieceNA (p : Piece) : String × ℚ := (p.name, p.w * p.h)

/-- The `(name, area)` image of a placement. -/
def placementNA (pl : Placement) : String × ℚ := (pl.name, pl.dim.1 * pl.dim.2)

/-- All `(name, area)` pairs placed in a `results` list. -/
def resultsNA (results : List ((ℚ × ℚ) × List Placement)) : List (String × ℚ) :=
  results.flatMap (fun sl => sl.2.map placementNA)

/-! ## Spec-modelled enumeration (for the refinement comparison of C2) -/

/-- One ply of the combinations-with-replacement recursion: extend with every
suffix head using the `prev` enumerator for one fewer picks. -/
def cwr_go (prev : List α → List (List α)) : List α → List (List α)
  | [] => []
  | x :: xs => (prev (x :: xs)).map (fun c => x :: c) ++ cwr_go prev xs

/-- Modelled from the spec: `itertools.combinations_with_replacement(l, r)` —
the spec's §4.4 enumeration primitive ("generate combinations-with-replacement
of the catalog taken r at a time"), which is absent from the code. -/
def combinations_with_replacement : Nat → List α → List (List α)
  | 0 => fun _ => [[]]
  | r + 1 => cwr_go (combinations_with_replacement r)

/-- Modelled from the spec: the candidate set of §4.4 — for r = 1 .. maxPanels
(maxPanels defaulting to the number of pieces), combinations-with-replacement
of the catalog taken r at a time, minus those whose total panel area is less
than the sum of required piece areas. -/
def spec_candidate_combos (required_pieces : List Piece)
    (catalog : List (ℚ × ℚ)) : List (List (ℚ × ℚ)) :=
  ((List.range' 1 required_pieces.length).flatMap
      (fun r => combinations_with_replacement r catalog)).filter
    (fun combo =>
      !decide ((combo.map (fun s => s.1 * s.2)).sum < required_area required_pieces))

/-! ## Concrete fixtures used by witnesses and counterexamples -/

/-- Two unit pieces (the tie-break scenario). -/
def req2 : List Piece := [⟨"a", 1, 1⟩, ⟨"b", 1, 1⟩]

/-- Catalog with two 1×1 slabs and one 2×1 slab (the tie-break scenario). -/
def av2 : List (ℚ × ℚ) := [(1, 1), (1, 1), (2, 1)]

/-- The enumeration order of `candidate_combos req2 av2`. -/
def ord_a : List (List (ℚ × ℚ)) :=
  [[(2, 1)], [(1, 1), (1, 1)], [(1, 1), (2, 1)], [(1, 1), (2, 1)],
   [(1, 1), (1, 1), (2, 1)]]

/-- A worker completion order swapping the first two candidates of `ord_a`. -/
def ord_b : List (List (ℚ × ℚ)) :=
  [[(1, 1), (1, 1)], [(2, 1)], [(1, 1), (2, 1)], [(1, 1), (2, 1)],
   [(1, 1), (1, 1), (2, 1)]]

/-- The rotation scenario of §8 of the spec: one 150×50 piece. -/
def req7 : List Piece := [⟨"p", 150, 50⟩]

/-- The rotation scenario's catalog: one 100×150 slab. -/
def av7 : List (ℚ × ℚ) := [(100, 150)]

/-! ## Elementary rectangle lemmas -/

lemma rectSub_refl (a : Rect) : rectSub a a := by
  unfold rectSub; exact ⟨le_refl _, le_refl _, le_refl _, le_refl _⟩

lemma rectSub_trans {a b c : Rect} (hab : rectSub a b) (hbc : rectSub b c) :
    rectSub a c := by
  unfold rectSub at *
  obtain ⟨h1, h2, h3, h4⟩ := hab
  obtain ⟨h5, h6, h7, h8⟩ := hbc
  exact ⟨le_trans h5 h1, le_trans h6 h2, le_trans h3 h7, le_trans h4 h8⟩

lemma rectSep_symm {a b : Rect} (h : rectSep a b) : rectSep b a := by
  unfold rectSep at *; tauto

lemma rectSep_mono {a a' b b' : Rect} (ha : rectSub a' a) (hb : rectSub b' b)
    (h : rectSep a b) : rectSep a' b' := by
  unfold rectSub at ha hb
  unfold rectSep at *
  obtain ⟨ha1, ha2, ha3, ha4⟩ := ha
  obtain ⟨hb1, hb2, hb3, hb4⟩ := hb
  rcases h with h | h | h | h
  · exact Or.inl (by linarith)
  · exact Or.inr (Or.inl (by linarith))
  · exact Or.inr (Or.inr (Or.inl (by linarith)))
  · exact Or.inr (Or.inr (Or.inr (by linarith)))

lemma inPanel_of_sub {a b : Rect} {sw sh : ℚ} (h : rectSub a b)
    (hb : inPanel b sw sh) : inPanel a sw sh := by
  unfold rectSub at h
  unfold inPanel at *
  obtain ⟨h1, h2, h3, h4⟩ := h
  obtain ⟨g1, g2, g3, g4⟩ := hb
  exact ⟨le_trans g1 h1, le_trans g2 h2, by linarith, by linarith⟩

/-! ## Lemmas about `can_fit_any_rotation` and `guillotine_split` -/

/-- On success, `can_fit_any_rotation` returns one of the two orientations
of the piece, and that orientation fits the space. -/
lemma can_fit_dim (piece space : ℚ × ℚ)
    (h : (can_fit_any_rotation piece space).1 = true) :
    ((can_fit_any_rotation piece space).2.1 = piece.1 ∧
     (can_fit_any_rotation piece space).2.2 = piece.2 ∧
      piece.1 ≤ space.1 ∧ piece.2 ≤ space.2) ∨
    ((can_fit_any_rotation piece space).2.1 = piece.2 ∧
     (can_fit_any_rotation piece space).2.2 = piece.1 ∧
      piece.2 ≤ space.1 ∧ piece.1 ≤ space.2) := by
  unfold can_fit_any_rotation at *
  by_cases h1 : piece.1 ≤ space.1 ∧ piece.2 ≤ space.2
  · simp [h1]
  · by_cases h2 : piece.2 ≤ space.1 ∧ piece.1 ≤ space.2
    · simp [h1, h2]
    · simp [h1, h2] at h

/-- Unfolding lemma: `guillotine_split` on a list whose head fits. -/
lemma guillotine_split_cons_fit (f : Rect) (free : List Rect) (pw ph : ℚ)
    (hf : (can_fit_any_rotation (pw, ph) (f.w, f.h)).1 = true) :
    guillotine_split (f :: free) pw ph =
      some ((f.x, f.y),
        ((can_fit_any_rotation (pw, ph) (f.w, f.h)).2.1,
         (can_fit_any_rotation (pw, ph) (f.w, f.h)).2.2),
        free ++ [Rect.mk (f.x + (can_fit_any_rotation (pw, ph) (f.w, f.h)).2.1) f.y
                   (f.w - (can_fit_any_rotation (pw, ph) (f.w, f.h)).2.1)
                   (can_fit_any_rotation (pw, ph) (f.w, f.h)).2.2,
                 Rect.mk f.x (f.y + (can_fit_any_rotation (pw, ph) (f.w, f.h)).2.2) f.w
                   (f.h - (can_fit_any_rotation (pw, ph) (f.w, f.h)).2.2)].filter
            (fun s => decide (0 < s.w) && decide (0 < s.h))) := by
  simp only [guillotine_split, hf, if_true]

/-- Unfolding lemma: `guillotine_split` on a list whose head does not fit. -/
lemma guillotine_split_cons_nofit (f : Rect) (free : List Rect) (pw ph : ℚ)
    (hf : ¬ (can_fit_any_rotation (pw, ph) (f.w, f.h)).1 = true) :
    guillotine_split (f :: free) pw ph =
      match guillotine_split free pw ph with
      | some (pos, dim, rest) => some (pos, dim, f :: rest)
      | none => none := by
  simp only [guillotine_split, hf, Bool.false_eq_true, if_false]

/-- The chosen dimensions are the piece's, possibly swapped. -/
lemma guillotine_split_dim :
    ∀ (free : List Rect) (pw ph : ℚ) (pos dim : ℚ × ℚ) (free' : List Rect),
      guillotine_split free pw ph = some (pos, dim, free') →
      dim = (pw, ph) ∨ dim = (ph, pw) := by
  intro free
  induction free with
  | nil => intro pw ph pos dim free' h; simp [guillotine_split] at h
  | cons f rest ih =>
    intro pw ph pos dim free' h
    by_cases hf : (can_fit_any_rotation (pw, ph) (f.w, f.h)).1 = true
    · rw [guillotine_split_cons_fit f rest pw ph hf] at h
      simp only [Option.some.injEq, Prod.mk.injEq] at h
      obtain ⟨-, hdim, -⟩ := h
      rcases can_fit_dim (pw, ph) (f.w, f.h) hf with ⟨he1, he2, -⟩ | ⟨he1, he2, -⟩
      · left; rw [← hdim, he1, he2]
      · right; rw [← hdim, he1, he2]
    · rw [guillotine_split_cons_nofit f rest pw ph hf] at h
      cases hrec : guillotine_split rest pw ph with
      | none => rw [hrec] at h; simp at h
      | some v =>
        obtain ⟨pos', dim', rest'⟩ := v
        rw [hrec] at h
        simp only [Option.some.injEq, Prod.mk.injEq] at h
        obtain ⟨hp, hd, -⟩ := h
        exact hd ▸ ih pw ph pos' dim' rest' hrec

/-- Full specification of a successful `guillotine_split`: the piece is placed
at the origin of some free rectangle `F` of the list, its rectangle is
contained in `F`; every rectangle of the updated list is either an old one or
is contained in `F` and separated from the placed piece; and if the free
rectangles were pairwise separated they remain so and are all separated from
the placed piece. -/
lemma guillotine_split_spec {pw ph : ℚ} (hw : 0 ≤ pw) (hh : 0 ≤ ph) :
    ∀ (free : List Rect) (pos dim : ℚ × ℚ) (free' : List Rect),
      guillotine_split free pw ph = some (pos, dim, free') →
      ∃ F, F ∈ free ∧ pos = (F.x, F.y) ∧ rectSub (mkRect pos dim) F ∧
        (∀ s ∈ free', s ∈ free ∨ (rectSub s F ∧ rectSep s (mkRect pos dim))) ∧
        (free.Pairwise rectSep →
          free'.Pairwise rectSep ∧ ∀ s ∈ free', rectSep s (mkRect pos dim)) := by
  intro free
  induction free with
  | nil => intro pos dim free' h; simp [guillotine_split] at h
  | cons f rest ih =>
    intro pos dim free' h
    by_cases hf : (can_fit_any_rotation (pw, ph) (f.w, f.h)).1 = true
    · rw [guillotine_split_cons_fit f rest pw ph hf] at h
      simp only [Option.some.injEq, Prod.mk.injEq] at h
      obtain ⟨hpos, hdim, hfree'⟩ := h
      set ow := (can_fit_any_rotation (pw, ph) (f.w, f.h)).2.1 with how_def
      set oh := (can_fit_any_rotation (pw, ph) (f.w, f.h)).2.2 with hoh_def
      have horient : (0 ≤ ow ∧ 0 ≤ oh) ∧ ow ≤ f.w ∧ oh ≤ f.h := by
        rcases can_fit_dim (pw, ph) (f.w, f.h) hf with ⟨he1, he2, hfit1, hfit2⟩ |
          ⟨he1, he2, hfit1, hfit2⟩
        · rw [how_def, hoh_def, he1, he2]; exact ⟨⟨hw, hh⟩, hfit1, hfit2⟩
        · rw [how_def, hoh_def, he1, he2]; exact ⟨⟨hh, hw⟩, hfit1, hfit2⟩
      obtain ⟨⟨how, hoh⟩, howle, hohle⟩ := horient
      have hpiece : mkRect pos dim = ⟨f.x, f.y, ow, oh⟩ := by
        rw [← hpos, ← hdim]; rfl
      have hsub_piece : rectSub (mkRect pos dim) f := by
        rw [hpiece]
        show f.x ≤ f.x ∧ f.y ≤ f.y ∧ f.x + ow ≤ f.x + f.w ∧ f.y + oh ≤ f.y + f.h
        exact ⟨le_refl _, le_refl _, by linarith, by linarith⟩
      have hsubS1 : rectSub ⟨f.x + ow, f.y, f.w - ow, oh⟩ f := by
        show f.x ≤ f.x + ow ∧ f.y ≤ f.y ∧
          f.x + ow + (f.w - ow) ≤ f.x + f.w ∧ f.y + oh ≤ f.y + f.h
        exact ⟨by linarith, le_refl _, by linarith, by linarith⟩
      have hsubS2 : rectSub ⟨f.x, f.y + oh, f.w, f.h - oh⟩ f := by
        show f.x ≤ f.x ∧ f.y ≤ f.y + oh ∧
          f.x + f.w ≤ f.x + f.w ∧ f.y + oh + (f.h - oh) ≤ f.y + f.h
        exact ⟨le_refl _, by linarith, le_refl _, by linarith⟩
      have hsepS1 : rectSep ⟨f.x + ow, f.y, f.w - ow, oh⟩ (mkRect pos dim) := by
        rw [hpiece]
        exact Or.inr (Or.inl (le_refl (f.x + ow)))
      have hsepS2 : rectSep ⟨f.x, f.y + oh, f.w, f.h - oh⟩ (mkRect pos dim) := by
        rw [hpiece]
        exact Or.inr (Or.inr (Or.inr (le_refl (f.y + oh))))
      have hkept : ∀ s, s ∈ ([Rect.mk (f.x + ow) f.y (f.w - ow) oh,
          Rect.mk f.x (f.y + oh) f.w (f.h - oh)].filter
            (fun s => decide (0 < s.w) && decide (0 < s.h))) →
          rectSub s f ∧ rectSep s (mkRect pos dim) := by
        intro s hs
        have hs2 : s = Rect.mk (f.x + ow) f.y (f.w - ow) oh ∨
            s = Rect.mk f.x (f.y + oh) f.w (f.h - oh) := by
          have := List.mem_filter.mp hs
          simpa using this.1
        rcases hs2 with rfl | rfl
        · exact ⟨hsubS1, hsepS1⟩
        · exact ⟨hsubS2, hsepS2⟩
      refine ⟨f, List.mem_cons_self f rest, hpos.symm, hsub_piece, ?_, ?_⟩
      · intro s hs
        rw [← hfree'] at hs
        rcases List.mem_append.mp hs with hs | hs
        · exact Or.inl (List.mem_cons_of_mem f hs)
        · exact Or.inr (hkept s hs)
      · intro hp
        obtain ⟨hhead, htail⟩ := List.pairwise_cons.mp hp
        constructor
        · rw [← hfree']
          refine List.pairwise_append.mpr ⟨htail, ?_, ?_⟩
          · refine List.Pairwise.sublist (List.filter_sublist _) ?_
            refine List.pairwise_cons.mpr ⟨?_, List.pairwise_singleton _ _⟩
            intro b hb
            simp only [List.mem_singleton] at hb
            subst hb
            exact Or.inr (Or.inr (Or.inl (le_refl (f.y + oh))))
          · intro a ha b hb
            have hbf := (hkept b hb).1
            exact rectSep_mono (rectSub_refl a) hbf (rectSep_symm (hhead a ha))
        · intro s hs
          rw [← hfree'] at hs
          rcases List.mem_append.mp hs with hs | hs
          · exact rectSep_mono (rectSub_refl s) hsub_piece (rectSep_symm (hhead s hs))
          · exact (hkept s hs).2
    · rw [guillotine_split_cons_nofit f rest pw ph hf] at h
      cases hrec : guillotine_split rest pw ph with
      | none => rw [hrec] at h; simp at h
      | some v =>
        obtain ⟨pos', dim', rest'⟩ := v
        rw [hrec] at h
        simp only [Option.some.injEq, Prod.mk.injEq] at h
        obtain ⟨hp, hd, hfr⟩ := h
        rw [← hp, ← hd, ← hfr]
        obtain ⟨F, hF, hFpos, hFsub, hFmem, hFpair⟩ := ih pos' dim' rest' hrec
        refine ⟨F, List.mem_cons_of_mem f hF, hFpos, hFsub, ?_, ?_⟩
        · intro s hs
          rcases List.mem_cons.mp hs with rfl | hs
          · exact Or.inl (List.mem_cons_self _ _)
          · rcases hFmem s hs with h1 | h1
            · exact Or.inl (List.mem_cons_of_mem f h1)
            · exact Or.inr h1
        · intro hp2
          obtain ⟨hhead, htail⟩ := List.pairwise_cons.mp hp2
          obtain ⟨hpair', hsep'⟩ := hFpair htail
          have hfF : rectSep f F := hhead F hF
          have hfpiece : rectSep f (mkRect pos' dim') :=
            rectSep_mono (rectSub_refl f) hFsub hfF
          constructor
          · refine List.pairwise_cons.mpr ⟨?_, hpair'⟩
            intro b hb
            rcases hFmem b hb with h1 | h1
            · exact hhead b h1
            · exact rectSep_mono (rectSub_refl f) h1.1 hfF
          · intro s hs
            rcases List.mem_cons.mp hs with rfl | hs
            · exact hfpiece
            · exact hsep' s hs

lemma placedRect_mk (n : String) (pos dim : ℚ × ℚ) :
    placedRect ⟨n, pos, dim⟩ = mkRect pos dim := rfl

/-! ## Sorting lemmas -/

lemma insert_piece_desc_perm (p : Piece) :
    ∀ l : List Piece, (insert_piece_desc p l).Perm (p :: l) := by
  intro l
  induction l with
  | nil => exact List.Perm.refl _
  | cons q qs ih =>
    unfold insert_piece_desc
    by_cases hc : piece_area q ≤ piece_area p
    · rw [if_pos hc]
    · rw [if_neg hc]
      exact (ih.cons q).trans (List.Perm.swap p q qs)

lemma sort_pieces_desc_perm (ps : List Piece) : (sort_pieces_desc ps).Perm ps := by
  induction ps with
  | nil => exact List.Perm.refl _
  | cons p ps ih =>
    unfold sort_pieces_desc at *
    exact (insert_piece_desc_perm p _).trans (ih.cons p)

/-! ## Lemmas about the piece loop `place_all` -/

lemma place_all_cons_some (free : List Rect) (p : Piece) (ps : List Piece)
    (pos dim : ℚ × ℚ) (free' : List Rect)
    (hgs : guillotine_split free p.w p.h = some (pos, dim, free')) :
    place_all free (p :: ps) =
      (⟨p.name, pos, dim⟩ :: (place_all free' ps).1,
       (place_all free' ps).2.1, (place_all free' ps).2.2) := by
  simp only [place_all, hgs]

lemma place_all_cons_none (free : List Rect) (p : Piece) (ps : List Piece)
    (hgs : guillotine_split free p.w p.h = none) :
    place_all free (p :: ps) =
      ((place_all free ps).1, p :: (place_all free ps).2.1, (place_all free ps).2.2) := by
  simp only [place_all, hgs]

/-- Every still-needed piece is one of the input pieces. -/
lemma place_all_still_mem :
    ∀ (ps : List Piece) (free : List Rect) (p : Piece),
      p ∈ (place_all free ps).2.1 → p ∈ ps := by
  intro ps
  induction ps with
  | nil => intro free p hp; simp [place_all] at hp
  | cons q qs ih =>
    intro free p hp
    cases hgs : guillotine_split free q.w q.h with
    | some v =>
      obtain ⟨pos, dim, free'⟩ := v
      rw [place_all_cons_some free q qs pos dim free' hgs] at hp
      exact List.mem_cons_of_mem q (ih free' p hp)
    | none =>
      rw [place_all_cons_none free q qs hgs] at hp
      rcases List.mem_cons.mp hp with rfl | hp
      · exact List.mem_cons_self _ _
      · exact List.mem_cons_of_mem q (ih free p hp)

/-- Conservation through one panel: the `(name, area)` multiset of the layout
plus that of the still-needed pieces is exactly that of the input pieces. -/
lemma place_all_perm :
    ∀ (ps : List Piece) (free : List Rect),
      ((place_all free ps).1.map placementNA ++
        (place_all free ps).2.1.map pieceNA).Perm (ps.map pieceNA) := by
  intro ps
  induction ps with
  | nil => intro free; simp [place_all]
  | cons q qs ih =>
    intro free
    cases hgs : guillotine_split free q.w q.h with
    | some v =>
      obtain ⟨pos, dim, free'⟩ := v
      rw [place_all_cons_some free q qs pos dim free' hgs]
      have hna : placementNA ⟨q.name, pos, dim⟩ = pieceNA q := by
        rcases guillotine_split_dim free q.w q.h pos dim free' hgs with rfl | rfl
        · rfl
        · simp [placementNA, pieceNA, mul_comm]
      simp only [List.map_cons, List.cons_append, hna, List.map_cons]
      exact (ih free').cons (pieceNA q)
    | none =>
      rw [place_all_cons_none free q qs hgs]
      simp only [List.map_cons]
      exact (List.perm_middle.trans ((ih free).cons (pieceNA q)))

/-- Geometric invariant through one panel: every placement is contained in one
of the initial free rectangles, and the placements are pairwise separated —
provided the pieces have nonnegative dimensions and the initial free
rectangles are pairwise separated. -/
lemma place_all_spec :
    ∀ (ps : List Piece) (free : List Rect),
      (∀ p ∈ ps, 0 ≤ p.w ∧ 0 ≤ p.h) → free.Pairwise rectSep →
      (∀ pl ∈ (place_all free ps).1, ∃ f ∈ free, rectSub (placedRect pl) f) ∧
      ((place_all free ps).1.map placedRect).Pairwise rectSep := by
  intro ps
  induction ps with
  | nil => intro free hps hfree; simp [place_all]
  | cons q qs ih =>
    intro free hps hfree
    have hq := hps q (List.mem_cons_self q qs)
    have hqs : ∀ p ∈ qs, 0 ≤ p.w ∧ 0 ≤ p.h :=
      fun p hp => hps p (List.mem_cons_of_mem q hp)
    cases hgs : guillotine_split free q.w q.h with
    | some v =>
      obtain ⟨pos, dim, free'⟩ := v
      rw [place_all_cons_some free q qs pos dim free' hgs]
      obtain ⟨F, hF, -, hFsub, hFmem, hFpair⟩ :=
        guillotine_split_spec hq.1 hq.2 free pos dim free' hgs
      obtain ⟨hpair', hsep'⟩ := hFpair hfree
      obtain ⟨ihsub, ihpair⟩ := ih free' hqs hpair'
      have hsub_free : ∀ pl ∈ (place_all free' qs).1, ∃ f ∈ free, rectSub (placedRect pl) f := by
        intro pl hpl
        obtain ⟨f', hf', hsub'⟩ := ihsub pl hpl
        rcases hFmem f' hf' with h1 | h1
        · exact ⟨f', h1, hsub'⟩
        · exact ⟨F, hF, rectSub_trans hsub' h1.1⟩
      constructor
      · intro pl hpl
        rcases List.mem_cons.mp hpl with rfl | hpl
        · exact ⟨F, hF, by rw [placedRect_mk]; exact hFsub⟩
        · exact hsub_free pl hpl
      · simp only [List.map_cons]
        refine List.pairwise_cons.mpr ⟨?_, ihpair⟩
        intro b hb
        obtain ⟨pl, hpl, rfl⟩ := List.mem_map.mp hb
        obtain ⟨f', hf', hsub'⟩ := ihsub pl hpl
        have hsepf' : rectSep f' (mkRect pos dim) := hsep' f' hf'
        rw [placedRect_mk]
        exact rectSep_symm (rectSep_mono hsub' (rectSub_refl _) hsepf')
    | none =>
      rw [place_all_cons_none free q qs hgs]
      exact ih free hqs hfree

/-! ## Lemmas about the slab loop `try_combo_loop` -/

lemma resultsNA_append (a b : List ((ℚ × ℚ) × List Placement)) :
    resultsNA (a ++ b) = resultsNA a ++ resultsNA b := by
  simp [resultsNA]

lemma try_combo_loop_cons_eq (pieces : List Piece) (slab : ℚ × ℚ) (combo : List (ℚ × ℚ))
    (layout : List Placement) (still : List Piece) (freeF : List Rect)
    (hpa : place_all [Rect.mk 0 0 (norm_w slab) (norm_h slab)] pieces = (layout, still, freeF)) :
    try_combo_loop pieces (slab :: combo) =
      if still = [] then
        ((if layout = [] then [] else [((norm_w slab, norm_h slab), layout)]), [],
         (if layout = [] then [] else [(norm_w slab, norm_h slab)]))
      else
        ((if layout = [] then [] else [((norm_w slab, norm_h slab), layout)]) ++
           (try_combo_loop still combo).1,
         (try_combo_loop still combo).2.1,
         (if layout = [] then [] else [(norm_w slab, norm_h slab)]) ++
           (try_combo_loop still combo).2.2) := by
  simp only [try_combo_loop, hpa]
  by_cases hl : layout = [] <;> by_cases hstill : still = [] <;>
    simp [hl, hstill]

lemma norm_h_le_norm_w (slab : ℚ × ℚ) : norm_h slab ≤ norm_w slab := by
  unfold norm_w norm_h
  by_cases hgt : slab.2 > slab.1
  · rw [if_pos hgt, if_pos hgt]; exact le_of_lt hgt
  · rw [if_neg hgt, if_neg hgt]; exact le_of_not_lt hgt

/-- Each slab recorded by the slab loop (in `results` or `used_slabs`) is
normalized: height ≤ width. -/
lemma try_combo_loop_norm :
    ∀ (combo : List (ℚ × ℚ)) (pieces : List Piece),
      (∀ sl ∈ (try_combo_loop pieces combo).1, sl.1.2 ≤ sl.1.1) ∧
      (∀ s ∈ (try_combo_loop pieces combo).2.2, s.2 ≤ s.1) := by
  intro combo
  induction combo with
  | nil => intro pieces; simp [try_combo_loop]
  | cons slab combo ih =>
    intro pieces
    rcases hpa : place_all [Rect.mk 0 0 (norm_w slab) (norm_h slab)] pieces with
      ⟨layout, still, freeF⟩
    rw [try_combo_loop_cons_eq pieces slab combo layout still freeF hpa]
    have hhead1 : ∀ sl ∈ (if layout = ([] : List Placement) then
        ([] : List ((ℚ × ℚ) × List Placement))
        else [((norm_w slab, norm_h slab), layout)]), sl.1.2 ≤ sl.1.1 := by
      by_cases hl : layout = []
      · rw [if_pos hl]; intro sl hsl; simp at hsl
      · rw [if_neg hl]; intro sl hsl
        simp only [List.mem_singleton] at hsl
        subst hsl
        exact norm_h_le_norm_w slab
    have hhead2 : ∀ s ∈ (if layout = ([] : List Placement) then
        ([] : List (ℚ × ℚ)) else [(norm_w slab, norm_h slab)]), s.2 ≤ s.1 := by
      by_cases hl : layout = []
      · rw [if_pos hl]; intro s hs; simp at hs
      · rw [if_neg hl]; intro s hs
        simp only [List.mem_singleton] at hs
        subst hs
        exact norm_h_le_norm_w slab
    by_cases hstill : still = []
    · rw [if_pos hstill]
      exact ⟨hhead1, hhead2⟩
    · rw [if_neg hstill]
      constructor
      · intro sl hsl
        rcases List.mem_append.mp hsl with hsl | hsl
        · exact hhead1 sl hsl
        · exact (ih still).1 sl hsl
      · intro s hs
        rcases List.mem_append.mp hs with hs | hs
        · exact hhead2 s hs
        · exact (ih still).2 s hs

/-- Conservation through the slab loop: the `(name, area)` multiset of all
placements plus that of the final leftovers is that of the input pieces. -/
lemma try_combo_loop_perm :
    ∀ (combo : List (ℚ × ℚ)) (pieces : List Piece),
      (resultsNA (try_combo_loop pieces combo).1 ++
        (try_combo_loop pieces combo).2.1.map pieceNA).Perm (pieces.map pieceNA) := by
  intro combo
  induction combo with
  | nil => intro pieces; simp [try_combo_loop, resultsNA]
  | cons slab combo ih =>
    intro pieces
    rcases hpa : place_all [Rect.mk 0 0 (norm_w slab) (norm_h slab)] pieces with
      ⟨layout, still, freeF⟩
    have hplace := place_all_perm pieces [Rect.mk 0 0 (norm_w slab) (norm_h slab)]
    rw [hpa] at hplace
    rw [try_combo_loop_cons_eq pieces slab combo layout still freeF hpa]
    have hrec_na : resultsNA (if layout = ([] : List Placement) then
        ([] : List ((ℚ × ℚ) × List Placement))
        else [((norm_w slab, norm_h slab), layout)]) = layout.map placementNA := by
      by_cases hl : layout = []
      · rw [if_pos hl, hl]; simp [resultsNA]
      · rw [if_neg hl]; simp [resultsNA]
    by_cases hstill : still = []
    · rw [if_pos hstill]
      show (resultsNA (if layout = [] then [] else [((norm_w slab, norm_h slab), layout)]) ++
        List.map pieceNA []).Perm (pieces.map pieceNA)
      rw [hrec_na]
      rw [hstill] at hplace
      simpa using hplace
    · rw [if_neg hstill]
      show (resultsNA ((if layout = [] then [] else [((norm_w slab, norm_h slab), layout)]) ++
          (try_combo_loop still combo).1) ++
        (try_combo_loop still combo).2.1.map pieceNA).Perm (pieces.map pieceNA)
      rw [resultsNA_append, hrec_na, List.append_assoc]
      exact (List.Perm.append_left (layout.map placementNA) (ih still)).trans hplace

/-- Geometric soundness through the slab loop: in every recorded slab, all
placements are in bounds for that slab's normalized dimensions and pairwise
separated — provided the pieces have nonnegative dimensions. -/
lemma try_combo_loop_inv :
    ∀ (combo : List (ℚ × ℚ)) (pieces : List Piece),
      (∀ p ∈ pieces, 0 ≤ p.w ∧ 0 ≤ p.h) →
      ∀ sl ∈ (try_combo_loop pieces combo).1,
        (∀ pl ∈ sl.2, inPanel (placedRect pl) sl.1.1 sl.1.2) ∧
        (sl.2.map placedRect).Pairwise rectSep := by
  intro combo
  induction combo with
  | nil => intro pieces hpos sl hsl; simp [try_combo_loop] at hsl
  | cons slab combo ih =>
    intro pieces hpos sl hsl
    rcases hpa : place_all [Rect.mk 0 0 (norm_w slab) (norm_h slab)] pieces with
      ⟨layout, still, freeF⟩
    have hspec := place_all_spec pieces [Rect.mk 0 0 (norm_w slab) (norm_h slab)]
      hpos (List.pairwise_singleton _ _)
    rw [hpa] at hspec
    obtain ⟨hsub, hpair⟩ := hspec
    have hfull : inPanel ⟨0, 0, norm_w slab, norm_h slab⟩ (norm_w slab) (norm_h slab) := by
      show (0:ℚ) ≤ 0 ∧ (0:ℚ) ≤ 0 ∧ 0 + norm_w slab ≤ norm_w slab ∧
        0 + norm_h slab ≤ norm_h slab
      refine ⟨le_refl _, le_refl _, by linarith, by linarith⟩
    have hlayout_props : (∀ pl ∈ layout,
        inPanel (placedRect pl) (norm_w slab) (norm_h slab)) ∧
        (layout.map placedRect).Pairwise rectSep := by
      refine ⟨?_, hpair⟩
      intro pl hpl
      obtain ⟨f, hf, hsubf⟩ := hsub pl hpl
      simp only [List.mem_singleton] at hf
      subst hf
      exact inPanel_of_sub hsubf hfull
    have hstill_pos : ∀ p ∈ still, 0 ≤ p.w ∧ 0 ≤ p.h := by
      intro p hp
      have hmem : p ∈ (place_all [Rect.mk 0 0 (norm_w slab) (norm_h slab)] pieces).2.1 := by
        rw [hpa]; exact hp
      exact hpos p (place_all_still_mem pieces _ p hmem)
    have hhead : ∀ sl ∈ (if layout = ([] : List Placement) then
        ([] : List ((ℚ × ℚ) × List Placement))
        else [((norm_w slab, norm_h slab), layout)]),
        (∀ pl ∈ sl.2, inPanel (placedRect pl) sl.1.1 sl.1.2) ∧
        (sl.2.map placedRect).Pairwise rectSep := by
      by_cases hl : layout = []
      · rw [if_pos hl]; intro sl hsl; simp at hsl
      · rw [if_neg hl]; intro sl hsl
        simp only [List.mem_singleton] at hsl
        subst hsl
        exact hlayout_props
    rw [try_combo_loop_cons_eq pieces slab combo layout still freeF hpa] at hsl
    by_cases hstill : still = []
    · rw [if_pos hstill] at hsl
      exact hhead sl hsl
    · rw [if_neg hstill] at hsl
      rcases List.mem_append.mp hsl with hsl | hsl
      · exact hhead sl hsl
      · exact ih still hstill_pos sl hsl

/-! ## Lemmas about the best-result selection loop -/

lemma select_best_cons_none (rest : List (Option (ℚ × NestResult)))
    (best : Option (ℚ × NestResult)) :
    select_best (none :: rest) best = select_best rest best := rfl

lemma select_best_cons_some_none (w : ℚ) (r : NestResult)
    (rest : List (Option (ℚ × NestResult))) :
    select_best (some (w, r) :: rest) none = select_best rest (some (w, r)) := rfl

lemma select_best_cons_some_some (w : ℚ) (r : NestResult) (bw : ℚ) (br : NestResult)
    (rest : List (Option (ℚ × NestResult))) :
    select_best (some (w, r) :: rest) (some (bw, br)) =
      if w < bw then select_best rest (some (w, r))
      else select_best rest (some (bw, br)) := rfl

/-- Starting from a current best, the loop returns a result whose wastage is
no larger than the current best's. -/
lemma select_best_le_init :
    ∀ (L : List (Option (ℚ × NestResult))) (bw : ℚ) (br : NestResult),
      ∃ w' r', select_best L (some (bw, br)) = some (w', r') ∧ w' ≤ bw := by
  intro L
  induction L with
  | nil => intro bw br; exact ⟨bw, br, rfl, le_refl bw⟩
  | cons o rest ih =>
    intro bw br
    rcases o with _ | ⟨u, s⟩
    · rw [select_best_cons_none]; exact ih bw br
    · rw [select_best_cons_some_some]
      by_cases hlt : u < bw
      · rw [if_pos hlt]
        obtain ⟨w', r', heq, hle⟩ := ih u s
        exact ⟨w', r', heq, le_trans hle (le_of_lt hlt)⟩
      · rw [if_neg hlt]; exact ih bw br

/-- The loop's result is at least as good as any feasible worker result. -/
lemma select_best_le_mem :
    ∀ (L : List (Option (ℚ × NestResult))) (b : Option (ℚ × NestResult))
      (w : ℚ) (r : NestResult),
      some (w, r) ∈ L →
      ∃ w' r', select_best L b = some (w', r') ∧ w' ≤ w := by
  intro L
  induction L with
  | nil => intro b w r hmem; simp at hmem
  | cons o rest ih =>
    intro b w r hmem
    rcases List.mem_cons.mp hmem with rfl | hmem2
    · rcases b with _ | ⟨bw, br⟩
      · rw [select_best_cons_some_none]
        exact select_best_le_init rest w r
      · rw [select_best_cons_some_some]
        by_cases hlt : w < bw
        · rw [if_pos hlt]; exact select_best_le_init rest w r
        · rw [if_neg hlt]
          obtain ⟨w', r', heq, hle⟩ := select_best_le_init rest bw br
          exact ⟨w', r', heq, le_trans hle (le_of_not_lt hlt)⟩
    · rcases o with _ | ⟨u, s⟩
      · rw [select_best_cons_none]; exact ih b w r hmem2
      · rcases b with _ | ⟨bw, br⟩
        · rw [select_best_cons_some_none]; exact ih _ w r hmem2
        · rw [select_best_cons_some_some]
          by_cases hlt : u < bw
          · rw [if_pos hlt]; exact ih _ w r hmem2
          · rw [if_neg hlt]; exact ih _ w r hmem2

/-- The loop returns one of the worker results, or its initial best. -/
lemma select_best_mem :
    ∀ (L : List (Option (ℚ × NestResult))) (b v : Option (ℚ × NestResult)),
      select_best L b = v → v ∈ L ∨ b = v := by
  intro L
  induction L with
  | nil => intro b v h; right; exact h
  | cons o rest ih =>
    intro b v h
    rcases o with _ | ⟨w, r⟩
    · rw [select_best_cons_none] at h
      rcases ih b v h with h1 | h1
      · exact Or.inl (List.mem_cons_of_mem _ h1)
      · exact Or.inr h1
    · rcases b with _ | ⟨bw, br⟩
      · rw [select_best_cons_some_none] at h
        rcases ih _ v h with h1 | h1
        · exact Or.inl (List.mem_cons_of_mem _ h1)
        · exact Or.inl (by rw [← h1]; exact List.mem_cons_self _ _)
      · rw [select_best_cons_some_some] at h
        by_cases hlt : w < bw
        · rw [if_pos hlt] at h
          rcases ih _ v h with h1 | h1
          · exact Or.inl (List.mem_cons_of_mem _ h1)
          · exact Or.inl (by rw [← h1]; exact List.mem_cons_self _ _)
        · rw [if_neg hlt] at h
          rcases ih _ v h with h1 | h1
          · exact Or.inl (List.mem_cons_of_mem _ h1)
          · exact Or.inr h1

/-- What a `some` answer of `try_combo_wrapped` means: the result is the
`try_combo` run on five copies of the combination, it has no leftovers, and
the reported wastage is its used area minus the required area. -/
lemma try_combo_wrapped_some {required_pieces : List Piece} {combo : List (ℚ × ℚ)}
    {w : ℚ} {r : NestResult}
    (h : try_combo_wrapped required_pieces combo = some (w, r)) :
    r = try_combo required_pieces (combo ++ combo ++ combo ++ combo ++ combo) ∧
    r.2.1 = [] ∧
    w = ((r.2.2.map (fun s => s.1 * s.2)).sum - required_area required_pieces) := by
  simp only [try_combo_wrapped] at h
  by_cases hleft :
      (try_combo required_pieces (combo ++ combo ++ combo ++ combo ++ combo)).2.1 = []
  · rw [if_pos hleft] at h
    simp only [Option.some.injEq, Prod.mk.injEq] at h
    obtain ⟨hw, hr⟩ := h
    subst hr
    exact ⟨rfl, hleft, hw.symm⟩
  · rw [if_neg hleft] at h
    simp at h

/-! ## The enumeration: membership characterization of `combinations` -/

lemma mem_combinations {α : Type} :
    ∀ (l : List α) (r : Nat) (c : List α),
      c ∈ combinations r l ↔ (c.Sublist l ∧ c.length = r) := by
  intro l
  induction l with
  | nil =>
    intro r c
    cases r with
    | zero =>
      simp only [combinations, List.mem_singleton]
      constructor
      · rintro rfl; exact ⟨List.Sublist.refl _, rfl⟩
      · rintro ⟨hsub, hlen⟩
        exact List.sublist_nil.mp hsub
    | succ n =>
      simp only [combinations, List.not_mem_nil, false_iff]
      rintro ⟨hsub, hlen⟩
      rw [List.sublist_nil.mp hsub] at hlen
      simp at hlen
  | cons x xs ih =>
    intro r c
    cases r with
    | zero =>
      simp only [combinations, List.mem_singleton]
      constructor
      · rintro rfl; exact ⟨List.nil_sublist _, rfl⟩
      · rintro ⟨hsub, hlen⟩
        exact List.length_eq_zero.mp hlen
    | succ n =>
      simp only [combinations, List.mem_append, List.mem_map]
      constructor
      · rintro (⟨c', hc', rfl⟩ | hc)
        · obtain ⟨hsub, hlen⟩ := (ih n c').mp hc'
          exact ⟨hsub.cons₂ x, by simp [hlen]⟩
        · obtain ⟨hsub, hlen⟩ := (ih (n + 1) c).mp hc
          exact ⟨hsub.cons x, hlen⟩
      · rintro ⟨hsub, hlen⟩
        cases hsub with
        | cons _ h => exact Or.inr ((ih (n + 1) c).mpr ⟨h, hlen⟩)
        | cons₂ _ h =>
          rename_i c'
          refine Or.inl ⟨c', (ih n c').mpr ⟨h, ?_⟩, rfl⟩
          simpa using hlen

/-! ## Helper equations for `can_fit_any_rotation` -/

lemma can_fit_eq (pw ph sw sh : ℚ) :
    can_fit_any_rotation (pw, ph) (sw, sh) =
      if pw ≤ sw ∧ ph ≤ sh then (true, (pw, ph))
      else if ph ≤ sw ∧ pw ≤ sh then (true, (ph, pw))
      else (false, (0, 0)) := rfl

lemma fitsEither_iff (pw ph : ℚ) (g : Rect) :
    fitsEither pw ph g = true ↔ ((pw ≤ g.w ∧ ph ≤ g.h) ∨ (ph ≤ g.w ∧ pw ≤ g.h)) := by
  simp [fitsEither]

/-! ## Claim theorems -/

/-- C4: for every piece and every ordered free-rectangle collection, the
packer scans the free rectangles in their current order, places the piece at
the origin `(x, y)` of the first rectangle in which either orientation fits,
and when both the un-rotated `(w, h)` and rotated `(h, w)` orientations fit in
that rectangle it chooses the un-rotated one. -/
theorem C4_first_fit_placement (free : List Rect) (pw ph : ℚ) :
    (free.find? (fitsEither pw ph) = none → guillotine_split free pw ph = none) ∧
    (∀ f : Rect, free.find? (fitsEither pw ph) = some f →
      ∃ rest, guillotine_split free pw ph =
        some ((f.x, f.y),
          (if pw ≤ f.w ∧ ph ≤ f.h then (pw, ph) else (ph, pw)), rest)) := by
  induction free with
  | nil =>
    refine ⟨fun _ => rfl, fun f hf => ?_⟩
    simp at hf
  | cons g rest ih =>
    by_cases hfit : fitsEither pw ph g = true
    · refine ⟨?_, ?_⟩
      · intro hnone
        rw [List.find?_cons_of_pos _ hfit] at hnone
        exact absurd hnone (by simp)
      · intro f hf
        rw [List.find?_cons_of_pos _ hfit] at hf
        have hgf : g = f := by simpa using hf
        subst hgf
        have hor := (fitsEither_iff pw ph g).mp hfit
        by_cases h1 : pw ≤ g.w ∧ ph ≤ g.h
        · have hcan : can_fit_any_rotation (pw, ph) (g.w, g.h) = (true, (pw, ph)) := by
            rw [can_fit_eq, if_pos h1]
          refine ⟨rest ++ [Rect.mk (g.x + pw) g.y (g.w - pw) ph,
              Rect.mk g.x (g.y + ph) g.w (g.h - ph)].filter
                (fun s => decide (0 < s.w) && decide (0 < s.h)), ?_⟩
          rw [guillotine_split_cons_fit g rest pw ph (by rw [hcan]), hcan, if_pos h1]
        · have h2 := hor.resolve_left h1
          have hcan : can_fit_any_rotation (pw, ph) (g.w, g.h) = (true, (ph, pw)) := by
            rw [can_fit_eq, if_neg h1, if_pos h2]
          refine ⟨rest ++ [Rect.mk (g.x + ph) g.y (g.w - ph) pw,
              Rect.mk g.x (g.y + pw) g.w (g.h - pw)].filter
                (fun s => decide (0 < s.w) && decide (0 < s.h)), ?_⟩
          rw [guillotine_split_cons_fit g rest pw ph (by rw [hcan]), hcan, if_neg h1]
    · have hcanfalse : ¬ (can_fit_any_rotation (pw, ph) (g.w, g.h)).1 = true := by
        intro hc
        apply hfit
        rw [fitsEither_iff]
        rw [can_fit_eq] at hc
        by_cases h1 : pw ≤ g.w ∧ ph ≤ g.h
        · exact Or.inl h1
        · rw [if_neg h1] at hc
          by_cases h2 : ph ≤ g.w ∧ pw ≤ g.h
          · exact Or.inr h2
          · rw [if_neg h2] at hc; simp at hc
      have hfind : (g :: rest).find? (fitsEither pw ph) = rest.find? (fitsEither pw ph) :=
        List.find?_cons_of_neg _ (by simpa using hfit)
      refine ⟨?_, ?_⟩
      · intro hnone
        rw [hfind] at hnone
        rw [guillotine_split_cons_nofit g rest pw ph hcanfalse, ih.1 hnone]
      · intro f hf
        rw [hfind] at hf
        obtain ⟨restL, hres⟩ := ih.2 f hf
        refine ⟨g :: restL, ?_⟩
        rw [guillotine_split_cons_nofit g rest pw ph hcanfalse, hres]

/-- C5: for every evaluated combination, each input piece appears (as its
`(name, area)` pair) in exactly one of the placed output and the leftover
output — the multiset of placed pairs plus leftover pairs is a permutation of
the input pairs — and the placed areas plus leftover areas sum to the total
input piece area. -/
theorem C5_piece_conservation (required_pieces : List Piece) (combo : List (ℚ × ℚ)) :
    ((resultsNA (try_combo required_pieces combo).1 ++
       (try_combo required_pieces combo).2.1.map pieceNA).Perm
        (required_pieces.map pieceNA)) ∧
    (((resultsNA (try_combo required_pieces combo).1).map Prod.snd).sum +
      ((((try_combo required_pieces combo).2.1.map pieceNA)).map Prod.snd).sum =
      required_area required_pieces) := by
  have h1 := try_combo_loop_perm combo (sort_pieces_desc required_pieces)
  have h2 : ((sort_pieces_desc required_pieces).map pieceNA).Perm
      (required_pieces.map pieceNA) := (sort_pieces_desc_perm required_pieces).map pieceNA
  have hperm : ((resultsNA (try_combo required_pieces combo).1 ++
      (try_combo required_pieces combo).2.1.map pieceNA).Perm
        (required_pieces.map pieceNA)) := h1.trans h2
  refine ⟨hperm, ?_⟩
  have hsum := (hperm.map Prod.snd).sum_eq
  rw [List.map_append, List.sum_append] at hsum
  rw [hsum, List.map_map]
  rfl

/-- C4 witness: a free list whose first rectangle does not fit and whose
second fits in both orientations; the piece is placed at the second
rectangle's origin, un-rotated. -/
theorem C4_first_fit_placement_witness :
    (([⟨0, 0, 1, 1⟩, ⟨3, 0, 5, 5⟩] : List Rect).find? (fitsEither 2 3) =
      some ⟨3, 0, 5, 5⟩) ∧
    (∃ rest, guillotine_split [⟨0, 0, 1, 1⟩, ⟨3, 0, 5, 5⟩] 2 3 =
      some (((3:ℚ), (0:ℚ)),
        (if (2:ℚ) ≤ (5:ℚ) ∧ (3:ℚ) ≤ (5:ℚ) then ((2:ℚ), (3:ℚ)) else (3, 2)), rest)) :=
  ⟨by with_unfolding_all decide,
   (C4_first_fit_placement [⟨0, 0, 1, 1⟩, ⟨3, 0, 5, 5⟩] 2 3).2 ⟨3, 0, 5, 5⟩ (by with_unfolding_all decide)⟩

/-- C3: in every panel of any evaluation (`try_combo`, which is the evaluator
behind every mode of `nest_pieces_guillotine`), every placement lies within
the panel (`x ≥ 0`, `y ≥ 0`, `x + w ≤ panelWidth`, `y + h ≤ panelHeight`) and
the rectangles of distinct placements on the same panel are pairwise
disjoint — for input pieces with positive dimensions, as the spec's data
model requires. -/
theorem C3_placements_in_bounds_disjoint (required_pieces : List Piece)
    (combo : List (ℚ × ℚ))
    (hpos : ∀ p ∈ required_pieces, 0 < p.w ∧ 0 < p.h) :
    ∀ sl ∈ (try_combo required_pieces combo).1,
      (∀ pl ∈ sl.2, inPanel (placedRect pl) sl.1.1 sl.1.2) ∧
      (sl.2.map placedRect).Pairwise rectSep := by
  have hpos2 : ∀ p ∈ sort_pieces_desc required_pieces, 0 ≤ p.w ∧ 0 ≤ p.h := by
    intro p hp
    have hmem := (sort_pieces_desc_perm required_pieces).mem_iff.mp hp
    exact ⟨le_of_lt (hpos p hmem).1, le_of_lt (hpos p hmem).2⟩
  exact try_combo_loop_inv combo (sort_pieces_desc required_pieces) hpos2

/-- C3 witness: one unit piece placed on a 2×1 slab. -/
theorem C3_placements_in_bounds_disjoint_witness :
    (∀ p ∈ ([⟨"a", 1, 1⟩] : List Piece), 0 < p.w ∧ 0 < p.h) ∧
    ((((2:ℚ), (1:ℚ)), [(⟨"a", (0, 0), (1, 1)⟩ : Placement)]) ∈
      (try_combo [⟨"a", 1, 1⟩] [(2, 1)]).1) ∧
    ((∀ pl ∈ [(⟨"a", (0, 0), (1, 1)⟩ : Placement)], inPanel (placedRect pl) 2 1) ∧
     (([(⟨"a", (0, 0), (1, 1)⟩ : Placement)]).map placedRect).Pairwise rectSep) :=
  ⟨by with_unfolding_all decide, by with_unfolding_all decide,
   C3_placements_in_bounds_disjoint [⟨"a", 1, 1⟩] [(2, 1)] (by with_unfolding_all decide)
     (((2:ℚ), (1:ℚ)), [⟨"a", (0, 0), (1, 1)⟩]) (by with_unfolding_all decide)⟩

/-- C10: a successful `guillotine_split` on a pairwise-separated free list
consumes the first fitting rectangle `F`, places the piece at `F`'s origin
inside `F`; the updated free list is again pairwise interior-disjoint, all of
its members avoid the placed piece, each member is an old free rectangle or
is contained in the consumed `F` (the two replacement strips), and the list
stays inside any panel containing the old list — for a piece with
nonnegative dimensions. -/
theorem C10_free_rect_invariant (free : List Rect) (pw ph : ℚ)
    (hw : 0 ≤ pw) (hh : 0 ≤ ph) (hfree : free.Pairwise rectSep)
    (pos dim : ℚ × ℚ) (free' : List Rect)
    (heq : guillotine_split free pw ph = some (pos, dim, free')) :
    ∃ F ∈ free, pos = (F.x, F.y) ∧ rectSub (mkRect pos dim) F ∧
      free'.Pairwise rectSep ∧
      (∀ s ∈ free', rectSep s (mkRect pos dim)) ∧
      (∀ s ∈ free', s ∈ free ∨ rectSub s F) ∧
      (∀ sw sh : ℚ, (∀ f ∈ free, inPanel f sw sh) → ∀ s ∈ free', inPanel s sw sh) := by
  obtain ⟨F, hF, hFpos, hFsub, hFmem, hFpair⟩ :=
    guillotine_split_spec hw hh free pos dim free' heq
  obtain ⟨hpair, hsep⟩ := hFpair hfree
  refine ⟨F, hF, hFpos, hFsub, hpair, hsep, ?_, ?_⟩
  · intro s hs
    rcases hFmem s hs with h1 | h1
    · exact Or.inl h1
    · exact Or.inr h1.1
  · intro sw sh hin s hs
    rcases hFmem s hs with h1 | h1
    · exact hin s h1
    · exact inPanel_of_sub h1.1 (hin F hF)

/-- C10 witness: a unit piece split off a 2×1 free rectangle. -/
theorem C10_free_rect_invariant_witness :
    ((0:ℚ) ≤ 1) ∧ (([⟨0, 0, 2, 1⟩] : List Rect).Pairwise rectSep) ∧
    (guillotine_split [⟨0, 0, 2, 1⟩] 1 1 =
      some (((0:ℚ), (0:ℚ)), ((1:ℚ), (1:ℚ)), [⟨1, 0, 1, 1⟩])) ∧
    (∃ F ∈ ([⟨0, 0, 2, 1⟩] : List Rect),
      ((0:ℚ), (0:ℚ)) = (F.x, F.y) ∧ rectSub (mkRect (0, 0) (1, 1)) F ∧
      ([⟨1, 0, 1, 1⟩] : List Rect).Pairwise rectSep ∧
      (∀ s ∈ ([⟨1, 0, 1, 1⟩] : List Rect), rectSep s (mkRect (0, 0) (1, 1))) ∧
      (∀ s ∈ ([⟨1, 0, 1, 1⟩] : List Rect), s ∈ ([⟨0, 0, 2, 1⟩] : List Rect) ∨ rectSub s F) ∧
      (∀ sw sh : ℚ, (∀ f ∈ ([⟨0, 0, 2, 1⟩] : List Rect), inPanel f sw sh) →
        ∀ s ∈ ([⟨1, 0, 1, 1⟩] : List Rect), inPanel s sw sh)) :=
  ⟨by with_unfolding_all decide, by with_unfolding_all decide, by with_unfolding_all decide,
   C10_free_rect_invariant [⟨0, 0, 2, 1⟩] 1 1 (by with_unfolding_all decide) (by with_unfolding_all decide) (by with_unfolding_all decide)
     (0, 0) (1, 1) [⟨1, 0, 1, 1⟩] (by with_unfolding_all decide)⟩

/-- C9: whatever the mode, every slab recorded in the returned result (both in
the layouts list and in the used-slabs list) is reported in the normalized
orientation width ≥ height, produced by the swap executed before any
packing. -/
theorem C9_slab_normalization (required_pieces : List Piece)
    (available_slabs : List (ℚ × ℚ)) (use_smart_combo granite_mode : Bool)
    (order : List (List (ℚ × ℚ))) :
    (∀ sl ∈ (nest_pieces_guillotine required_pieces available_slabs use_smart_combo
        granite_mode order).1, sl.1.2 ≤ sl.1.1) ∧
    (∀ s ∈ (nest_pieces_guillotine required_pieces available_slabs use_smart_combo
        granite_mode order).2.2, s.2 ≤ s.1) := by
  have htc : ∀ (combo : List (ℚ × ℚ)),
      (∀ sl ∈ (try_combo required_pieces combo).1, sl.1.2 ≤ sl.1.1) ∧
      (∀ s ∈ (try_combo required_pieces combo).2.2, s.2 ≤ s.1) :=
    fun combo => try_combo_loop_norm combo (sort_pieces_desc required_pieces)
  have hsmart : (∀ sl ∈ (nest_smart required_pieces order).1, sl.1.2 ≤ sl.1.1) ∧
      (∀ s ∈ (nest_smart required_pieces order).2.2, s.2 ≤ s.1) := by
    unfold nest_smart
    cases hsel : select_best (order.map fun c => try_combo_wrapped required_pieces c)
        none with
    | none =>
      exact ⟨fun sl hsl => absurd hsl (List.not_mem_nil _),
             fun s hs => absurd hs (List.not_mem_nil _)⟩
    | some v =>
      obtain ⟨w, r⟩ := v
      rcases select_best_mem _ none (some (w, r)) hsel with hmem | hmem
      · obtain ⟨c, hc, hcw⟩ := List.mem_map.mp hmem
        obtain ⟨hr, -, -⟩ := try_combo_wrapped_some hcw
        subst hr
        exact htc _
      · simp at hmem
  cases granite_mode
  · cases use_smart_combo
    · exact htc available_slabs
    · exact hsmart
  · exact htc (sort_slabs available_slabs)

/-- C9 witness: the rotation-scenario run reports its used slab as the
normalized (150, 100), with 100 ≤ 150. -/
theorem C9_slab_normalization_witness :
    ((((150:ℚ), (100:ℚ)), [(⟨"p", (0, 0), (150, 50)⟩ : Placement)]) ∈
      (nest_pieces_guillotine req7 av7 true false (candidate_combos req7 av7)).1) ∧
    ((100:ℚ) ≤ (150:ℚ)) :=
  ⟨by with_unfolding_all decide,
   (C9_slab_normalization req7 av7 true false (candidate_combos req7 av7)).1
     (((150:ℚ), (100:ℚ)), [⟨"p", (0, 0), (150, 50)⟩]) (by with_unfolding_all decide)⟩

/-- C1 (amended): the selection loop returns a feasible evaluated result of
minimal wastage — for any worker completion order, whenever some evaluated
combination is feasible with wastage `w`, the returned result is itself some
evaluated feasible combination's result, its wastage is ≤ `w`, and its
wastage equals its used-panel area minus the required area (so minimal
wastage coincides with minimal total used-panel area).  No panel-count
tie-break is applied among equal-wastage results. -/
theorem C1_min_wastage_selection (required_pieces : List Piece)
    (order : List (List (ℚ × ℚ))) (combo : List (ℚ × ℚ)) (w : ℚ) (r : NestResult)
    (hc : combo ∈ order)
    (he : try_combo_wrapped required_pieces combo = some (w, r)) :
    ∃ w' r',
      select_best (order.map fun c => try_combo_wrapped required_pieces c) none =
        some (w', r') ∧
      w' ≤ w ∧
      nest_smart required_pieces order = r' ∧
      ∃ c ∈ order, try_combo_wrapped required_pieces c = some (w', r') ∧
        r'.2.1 = [] ∧
        w' = ((r'.2.2.map (fun s => s.1 * s.2)).sum - required_area required_pieces) := by
  have hmem : some (w, r) ∈ order.map fun c => try_combo_wrapped required_pieces c :=
    List.mem_map.mpr ⟨combo, hc, he⟩
  obtain ⟨w', r', heq, hle⟩ := select_best_le_mem _ none w r hmem
  refine ⟨w', r', heq, hle, ?_, ?_⟩
  · unfold nest_smart
    rw [heq]
  · rcases select_best_mem _ none (some (w', r')) heq with h1 | h1
    · obtain ⟨c, hcord, hcw⟩ := List.mem_map.mp h1
      obtain ⟨-, hleft, hwaste⟩ := try_combo_wrapped_some hcw
      exact ⟨c, hcord, hcw, hleft, hwaste⟩
    · simp at h1

/-- C1 witness: a single unit piece with a single 1×1 catalog slab. -/
theorem C1_min_wastage_selection_witness :
    ([((1:ℚ), (1:ℚ))] ∈ [[((1:ℚ), (1:ℚ))]]) ∧
    (try_combo_wrapped [⟨"a", 1, 1⟩] [(1, 1)] =
      some (0, ([(((1:ℚ), (1:ℚ)), [⟨"a", (0, 0), (1, 1)⟩])], [], [((1:ℚ), (1:ℚ))]))) ∧
    (∃ w' r',
      select_best ([[((1:ℚ), (1:ℚ))]].map fun c => try_combo_wrapped [⟨"a", 1, 1⟩] c)
          none = some (w', r') ∧
      w' ≤ 0 ∧
      nest_smart [⟨"a", 1, 1⟩] [[(1, 1)]] = r' ∧
      ∃ c ∈ [[((1:ℚ), (1:ℚ))]], try_combo_wrapped [⟨"a", 1, 1⟩] c = some (w', r') ∧
        r'.2.1 = [] ∧
        w' = ((r'.2.2.map (fun s => s.1 * s.2)).sum - required_area [⟨"a", 1, 1⟩])) :=
  ⟨by with_unfolding_all decide, by with_unfolding_all decide,
   C1_min_wastage_selection [⟨"a", 1, 1⟩] [[(1, 1)]] [(1, 1)] 0
     ([(((1:ℚ), (1:ℚ)), [⟨"a", (0, 0), (1, 1)⟩])], [], [((1:ℚ), (1:ℚ))])
     (by with_unfolding_all decide) (by with_unfolding_all decide)⟩

/-- C1 counterexample: with completion order `ord_b` (a permutation of the
enumerated candidates for `req2`/`av2`), the run returns the two-panel
zero-wastage result although the evaluated feasible combination `[(2, 1)]`
also has wastage 0 and uses only one panel — the returned result is not
lexicographically minimal (waste, then panel count). -/
theorem C1_counterexample :
    ord_b.Perm (candidate_combos req2 av2) ∧
    try_combo_wrapped req2 [(1, 1), (1, 1)] =
      some (0, ([(((1:ℚ), (1:ℚ)), [⟨"a", (0, 0), (1, 1)⟩]),
                 (((1:ℚ), (1:ℚ)), [⟨"b", (0, 0), (1, 1)⟩])], [],
                [((1:ℚ), (1:ℚ)), ((1:ℚ), (1:ℚ))])) ∧
    nest_smart req2 ord_b =
      ([(((1:ℚ), (1:ℚ)), [⟨"a", (0, 0), (1, 1)⟩]),
        (((1:ℚ), (1:ℚ)), [⟨"b", (0, 0), (1, 1)⟩])], [],
       [((1:ℚ), (1:ℚ)), ((1:ℚ), (1:ℚ))]) ∧
    try_combo_wrapped req2 [(2, 1)] =
      some (0, ([(((2:ℚ), (1:ℚ)), [⟨"a", (0, 0), (1, 1)⟩, ⟨"b", (1, 0), (1, 1)⟩])], [],
                [((2:ℚ), (1:ℚ))])) ∧
    ([(2, 1)] ∈ ord_b) ∧
    (nest_smart req2 ord_b).2.2.length = 2 := by
  with_unfolding_all decide

/-- C6 (amended): the achieved minimal wastage is invariant under the worker
completion order — two runs over completion orders that are permutations of
each other select results with the same wastage (though not necessarily the
same layout). -/
theorem C6_wastage_completion_order_invariant (required_pieces : List Piece)
    (order1 order2 : List (List (ℚ × ℚ))) (h : order1.Perm order2) :
    (select_best (order1.map fun c => try_combo_wrapped required_pieces c) none).map
        Prod.fst =
      (select_best (order2.map fun c => try_combo_wrapped required_pieces c) none).map
        Prod.fst := by
  have hp : (order1.map fun c => try_combo_wrapped required_pieces c).Perm
      (order2.map fun c => try_combo_wrapped required_pieces c) := h.map _
  cases h1 : select_best (order1.map fun c => try_combo_wrapped required_pieces c)
      none with
  | none =>
    cases h2 : select_best (order2.map fun c => try_combo_wrapped required_pieces c)
        none with
    | none => rfl
    | some v2 =>
      obtain ⟨w2, r2⟩ := v2
      rcases select_best_mem _ none (some (w2, r2)) h2 with hmem | hmem
      · obtain ⟨w', r', heq, -⟩ :=
          select_best_le_mem _ none w2 r2 (hp.mem_iff.mpr hmem)
        rw [h1] at heq
        simp at heq
      · simp at hmem
  | some v1 =>
    obtain ⟨w1, r1⟩ := v1
    rcases select_best_mem _ none (some (w1, r1)) h1 with hmem1 | hmem1
    · obtain ⟨w2, r2, h2, hle21⟩ :=
        select_best_le_mem _ none w1 r1 (hp.mem_iff.mp hmem1)
      rw [h2]
      rcases select_best_mem _ none (some (w2, r2)) h2 with hmem2 | hmem2
      · obtain ⟨w1', r1', h1', hle12⟩ :=
          select_best_le_mem _ none w2 r2 (hp.mem_iff.mpr hmem2)
        rw [h1] at h1'
        simp only [Option.some.injEq, Prod.mk.injEq] at h1'
        have hw : w1 = w2 := le_antisymm (h1'.1 ▸ hle12) hle21
        show some w1 = some w2
        rw [hw]
      · simp at hmem2
    · simp at hmem1

/-- C6 witness: two permuted completion orders of the tie-break scenario
select results of the same wastage. -/
theorem C6_wastage_completion_order_invariant_witness :
    ord_a.Perm ord_b ∧
    (select_best (ord_a.map fun c => try_combo_wrapped req2 c) none).map Prod.fst =
      (select_best (ord_b.map fun c => try_combo_wrapped req2 c) none).map Prod.fst :=
  ⟨by with_unfolding_all decide,
   C6_wastage_completion_order_invariant req2 ord_a ord_b
     (by with_unfolding_all decide)⟩

/-- C6 counterexample: `ord_a` and `ord_b` are both permutations of the
enumerated candidates for `req2`/`av2` — two legitimate worker completion
orders of the same run — yet the selected combination and layout differ, so
the optimizer is not deterministic across completion orders. -/
theorem C6_counterexample :
    ord_a.Perm (candidate_combos req2 av2) ∧
    ord_b.Perm (candidate_combos req2 av2) ∧
    nest_smart req2 ord_a ≠ nest_smart req2 ord_b := by
  with_unfolding_all decide

/-- C2 (amended): the candidate combinations the optimizer evaluates are
exactly the subsequences of the area-sorted catalog of length 1 to
min(catalog size, 5) — `itertools.combinations` without replacement, not
combinations-with-replacement — that pass the total-area pre-filter; each
survivor is then handed to the assigner with its panel list repeated five
times (`try_combo_wrapped`). -/
theorem C2_enumeration_characterization (required_pieces : List Piece)
    (available_slabs : List (ℚ × ℚ)) (c : List (ℚ × ℚ)) :
    c ∈ candidate_combos required_pieces available_slabs ↔
      (c.Sublist (sort_slabs available_slabs) ∧
       1 ≤ c.length ∧ c.length ≤ min (sort_slabs available_slabs).length 5 ∧
       ¬ ((c.map (fun s => s.1 * s.2)).sum < required_area required_pieces)) := by
  simp only [candidate_combos, List.mem_filter, List.mem_flatMap, List.mem_range'_1,
    mem_combinations, Bool.not_eq_eq_eq_not, Bool.not_true, decide_eq_false_iff_not]
  constructor
  · rintro ⟨⟨r, ⟨hr1, hr2⟩, hsub, hlen⟩, hA⟩
    subst hlen
    exact ⟨hsub, hr1, by omega, hA⟩
  · rintro ⟨hsub, h1, h2, hA⟩
    exact ⟨⟨c.length, ⟨h1, by omega⟩, hsub, rfl⟩, hA⟩

/-- C2 counterexample: for two unit pieces and the one-slab catalog
`[(2, 1)]`, the spec's enumeration (combinations-with-replacement up to
maxPanels = number of pieces) contains the two-slab combination
`[(2, 1), (2, 1)]`, but the code's candidate set is just `[[(2, 1)]]` —
the two enumerations differ. -/
theorem C2_counterexample :
    candidate_combos req2 [(2, 1)] = [[((2:ℚ), (1:ℚ))]] ∧
    spec_candidate_combos req2 [(2, 1)] =
      [[((2:ℚ), (1:ℚ))], [((2:ℚ), (1:ℚ)), ((2:ℚ), (1:ℚ))]] ∧
    ([[((2:ℚ), (1:ℚ))]] : List (List (ℚ × ℚ))) ≠
      [[((2:ℚ), (1:ℚ))], [((2:ℚ), (1:ℚ)), ((2:ℚ), (1:ℚ))]] := by
  with_unfolding_all decide

/-- C7 counterexample: on the rotation scenario (piece (150, 50), catalog
{(100, 150)}), the code first normalizes the slab to (150, 100), so the
piece is placed **un-rotated** with dimensions (150, 50) — not in the rotated
orientation (50, 150) the claim expects. -/
theorem C7_counterexample :
    nest_smart req7 (candidate_combos req7 av7) =
      ([(((150:ℚ), (100:ℚ)), [⟨"p", (0, 0), (150, 50)⟩])], [], [((150:ℚ), (100:ℚ))]) ∧
    ((150:ℚ), (50:ℚ)) ≠ ((50:ℚ), (150:ℚ)) := by
  with_unfolding_all decide

/-- C7 (amended): on the rotation scenario the slab (100, 150) is normalized
to (150, 100) before packing; the un-rotated orientation (150, 50) then fits
and is chosen, and the single evaluated combination is feasible with wastage
15000 − 7500 = 7500. -/
theorem C7_normalized_unrotated_fit :
    candidate_combos req7 av7 = [[((100:ℚ), (150:ℚ))]] ∧
    try_combo_wrapped req7 [(100, 150)] =
      some (7500,
        ([(((150:ℚ), (100:ℚ)), [⟨"p", (0, 0), (150, 50)⟩])], [], [((150:ℚ), (100:ℚ))])) := by
  constructor
  · with_unfolding_all decide
  · have h : try_combo req7 ([((100:ℚ), (150:ℚ))] ++ [((100:ℚ), (150:ℚ))] ++
        [((100:ℚ), (150:ℚ))] ++ [((100:ℚ), (150:ℚ))] ++ [((100:ℚ), (150:ℚ))]) =
        ([(((150:ℚ), (100:ℚ)), [⟨"p", (0, 0), (150, 50)⟩])], [], [((150:ℚ), (100:ℚ))]) := by
      with_unfolding_all decide
    simp only [try_combo_wrapped, h]
    norm_num [required_area, req7]

/-- C8 counterexample: a piece with non-positive width (0 × 50) is not
rejected — `try_combo` proceeds and "places" it at the origin of the first
slab, returning a normal result instead of any failure. -/
theorem C8_counterexample :
    try_combo [⟨"p", 0, 50⟩] [(100, 100)] =
      ([(((100:ℚ), (100:ℚ)), [⟨"p", (0, 0), (0, 50)⟩])], [], [((100:ℚ), (100:ℚ))]) := by
  with_unfolding_all decide

/-- C8 (amended): the core performs no validation of non-positive piece or
slab dimensions — the full optimizer run on a 0-width piece computes and
returns a layout placing that piece, rather than failing. -/
theorem C8_no_input_validation :
    nest_pieces_guillotine [⟨"p", 0, 50⟩] [(100, 100)] true false
        (candidate_combos [⟨"p", 0, 50⟩] [(100, 100)]) =
      ([(((100:ℚ), (100:ℚ)), [⟨"p", (0, 0), (0, 50)⟩])], [], [((100:ℚ), (100:ℚ))]) := by
  with_unfolding_all decide

end SlabOpt
